import Mathlib

/-!
Shallow embedding of the go-spew deep pretty printer (package `spew`).

The repository ships the safe field-access bypass (`bypasssafe.go`), the
internal white-box tests (`internal_test.go`) and a design article; the
traversal-and-render engine itself (dump/format/sort/config) is described by
the specification and its concrete output examples.  The engine definitions
below are therefore modelled from the spec, while `unsafeReflectValue` and
`UnsafeDisabled` are translated directly from `bypasssafe.go`.
-/

set_option maxHeartbeats 2000000

namespace Spew

/-- Modelled from the spec: map keys handled by the Key Orderer (`sortValues`
is absent from the sources; only its test shim `SortValues` remains).
Primitive key kinds: bool, signed int, unsigned int, string. -/
inductive MapKey where
  | kBool (b : Bool)
  | kInt (n : Int)
  | kUint (n : Nat)
  | kString (s : String)
deriving DecidableEq

/-- Modelled from the spec: the stable kind-based precedence used by the Key
Orderer when keys have differing kinds. -/
def kindIdx : MapKey → Nat
  | .kBool _ => 1
  | .kInt _ => 2
  | .kUint _ => 3
  | .kString _ => 4

/-- Modelled from the spec: the Key Orderer total order — natural value
comparison within the same kind, kind precedence across kinds. -/
def keyLe (a b : MapKey) : Bool :=
  match a, b with
  | .kBool x, .kBool y => !x || y
  | .kInt x, .kInt y => decide (x ≤ y)
  | .kUint x, .kUint y => decide (x ≤ y)
  | .kString x, .kString y => decide (x ≤ y)
  | _, _ => decide (kindIdx a ≤ kindIdx b)

/-- Modelled from the spec: a reflective value as consumed by the engine.
Struct fields carry their name and exported flag; pointers carry the
reference identity used for cycle detection; an unrecognized kind carries
its accessibility flag and the host library's default textual conversion. -/
inductive Value where
  | invalid
  | vBool (b : Bool)
  | vInt (ty : String) (n : Int)
  | vUint (ty : String) (n : Nat)
  | vString (s : String)
  | vNilPtr (ty : String)
  | vPtr (ty : String) (addr : Nat)
  | vStruct (ty : String) (fields : List (String × Bool × Value))
  | vMap (ty : String) (entries : List (MapKey × Value))
  | vStringer (ty : String) (raw : Value) (outp : Except String String)
  | vUnknown (ty : String) (kind : String) (accessible : Bool) (hostRepr : String)

/-- Modelled from the spec: the value graph, mapping reference identities to
the values they point at. -/
abbrev Heap := List (Nat × Value)

/-- Modelled from the spec: resolving a reference identity in the value
graph. -/
def lookupHeap (h : Heap) (a : Nat) : Option Value :=
  match h with
  | [] => none
  | (b, v) :: t => if a = b then some v else lookupHeap t a

/-- Number of reference identities in the graph not yet in the visited set;
this quantity strictly decreases at every pointer descent. -/
def unvisited (h : Heap) (vis : List Nat) : Nat :=
  ((h.map Prod.fst).filter (fun x => decide (¬ x ∈ vis))).length

/-- Modelled from the spec: the immutable Configuration record. -/
structure ConfigState where
  maxDepth : Nat
  indent : String
  disableMethods : Bool
  disablePointerAddresses : Bool
  disableCapacities : Bool
  sortKeys : Bool

/-- Modelled from the spec: the package-level default configuration
(`spew.Config`): unlimited depth, single-space indent, all switches off. -/
def defaultConfig : ConfigState :=
  { maxDepth := 0, indent := " ", disableMethods := false,
    disablePointerAddresses := false, disableCapacities := false,
    sortKeys := false }

/-- The Key Orderer relation lifted to map entries (compare by key). -/
def entryLe (a b : MapKey × Value) : Prop := keyLe a.1 b.1 = true

instance : DecidableRel entryLe := fun a b => by
  unfold entryLe; infer_instance

/-- Modelled from the spec: route map entries through the Key Orderer when
`SortKeys` is enabled, otherwise keep the host iteration order. -/
def sortEntries (cfg : ConfigState) (l : List (MapKey × Value)) :
    List (MapKey × Value) :=
  if cfg.sortKeys then List.insertionSort entryLe l else l

/-- Hexadecimal rendering of a reference identity, in the `0x...` style the
host uses for addresses. -/
def fmtAddr (a : Nat) : String := "0x" ++ (Nat.toDigits 16 a).asString

/-- Indentation: `n` copies of the configured indent unit. -/
def indentN (u : String) : Nat → String
  | 0 => ""
  | n + 1 => u ++ indentN u n

/-- Type annotation prefix used by the Indented renderer for leaves. -/
def typeAnn (showType : Bool) (ty : String) : String :=
  if showType then "(" ++ ty ++ ") " else ""

/-- Inline address component of a pointer: printed only when pointer display
is enabled (the verbose flag) and `DisablePointerAddresses` is not set. -/
def ptrAddrPart (cfg : ConfigState) (plus : Bool) (addr : Nat) : String :=
  if plus && !cfg.disablePointerAddresses then "(" ++ fmtAddr addr ++ ")" else ""

/-- Inline rendering of a map key (host default conversion). -/
def keyStr : MapKey → String
  | .kBool b => if b then "true" else "false"
  | .kInt n => toString n
  | .kUint n => toString n
  | .kString s => s

/-- Indented rendering of a map key: annotated leaf form. -/
def dumpKey : MapKey → String
  | .kBool b => "(bool) " ++ (if b then "true" else "false")
  | .kInt n => "(int) " ++ toString n
  | .kUint n => "(uint) " ++ toString n
  | .kString s => "(string) \"" ++ s ++ "\""

theorem length_filter_imp {l : List Nat} {p q : Nat → Bool}
    (h : ∀ x, q x = true → p x = true) :
    (l.filter q).length ≤ (l.filter p).length := by
  induction l with
  | nil => simp
  | cons a t ih =>
    by_cases hq : q a = true
    · have hp := h a hq
      simp [List.filter, hq, hp]
      omega
    · have hq2 : q a = false := by simp at hq; exact hq
      simp [List.filter, hq2]
      cases hp : p a <;> simp <;> omega

theorem unvisited_lt {h : Heap} {vis : List Nat} {a : Nat}
    (mem : a ∈ h.map Prod.fst) (hnv : ¬ a ∈ vis) :
    unvisited h (a :: vis) < unvisited h vis := by
  unfold unvisited
  induction h with
  | nil => simp at mem
  | cons hd t ih =>
    simp only [List.map_cons] at mem ⊢
    rcases List.mem_cons.mp mem with heq | hmem
    · subst heq
      have h1 : (decide (¬ hd.1 ∈ hd.1 :: vis)) = false := by simp
      have h2 : (decide (¬ hd.1 ∈ vis)) = true := by simp [hnv]
      simp only [List.filter, h1, h2, List.length_cons]
      have := length_filter_imp (l := t.map Prod.fst)
        (p := fun x => decide (¬ x ∈ vis)) (q := fun x => decide (¬ x ∈ hd.1 :: vis))
        (by intro x hx; simp at hx ⊢; exact hx.2)
      omega
    · by_cases hin : hd.1 ∈ a :: vis
      · by_cases hin2 : hd.1 ∈ vis
        · have h1 : (decide (¬ hd.1 ∈ a :: vis)) = false := by simp [hin]
          have h2 : (decide (¬ hd.1 ∈ vis)) = false := by simp [hin2]
          simp only [List.filter, h1, h2]
          exact ih hmem
        · have heq : hd.1 = a := by
            rcases List.mem_cons.mp hin with he | hc
            · exact he
            · exact absurd hc hin2
          have h1 : (decide (¬ hd.1 ∈ a :: vis)) = false := by simp [hin]
          have h2 : (decide (¬ hd.1 ∈ vis)) = true := by simp [hin2]
          simp only [List.filter, h1, h2, List.length_cons]
          have := length_filter_imp (l := t.map Prod.fst)
            (p := fun x => decide (¬ x ∈ vis)) (q := fun x => decide (¬ x ∈ a :: vis))
            (by intro x hx; simp at hx ⊢; exact hx.2)
          omega
      · have hin2 : ¬ hd.1 ∈ vis := fun hc => hin (List.mem_cons_of_mem _ hc)
        have h1 : (decide (¬ hd.1 ∈ a :: vis)) = true := by simp [hin]
        have h2 : (decide (¬ hd.1 ∈ vis)) = true := by simp [hin2]
        simp only [List.filter, h1, h2, List.length_cons]
        have := ih hmem
        omega

theorem lookupHeap_mem_domain {h : Heap} {a : Nat} {v : Value}
    (hl : lookupHeap h a = some v) : a ∈ h.map Prod.fst := by
  induction h with
  | nil => simp [lookupHeap] at hl
  | cons hd t ih =>
    simp only [lookupHeap] at hl
    by_cases he : a = hd.1
    · simp [he]
    · rw [if_neg he] at hl
      simp [ih hl]

theorem lookupHeap_sizeOf {h : Heap} {a : Nat} {v : Value}
    (hl : lookupHeap h a = some v) : sizeOf v < sizeOf h := by
  induction h with
  | nil => simp [lookupHeap] at hl
  | cons hd t ih =>
    simp only [lookupHeap] at hl
    by_cases he : a = hd.1
    · rw [if_pos he] at hl
      obtain ⟨b, w⟩ := hd
      simp at hl
      subst hl
      simp
      omega
    · rw [if_neg he] at hl
      have := ih hl
      simp
      omega

theorem sizeOf_perm {α : Type} [SizeOf α] {l1 l2 : List α}
    (p : List.Perm l1 l2) : sizeOf l1 = sizeOf l2 := by
  induction p with
  | nil => rfl
  | cons x _ ih => simp [ih]
  | swap x y l => simp; omega
  | trans _ _ ih1 ih2 => omega

theorem sizeOf_sortEntries (cfg : ConfigState) (l : List (MapKey × Value)) :
    sizeOf (sortEntries cfg l) = sizeOf l := by
  unfold sortEntries
  by_cases hs : cfg.sortKeys
  · rw [if_pos hs]
    exact sizeOf_perm (List.perm_insertionSort entryLe l)
  · rw [if_neg hs]

theorem mem_sortEntries {cfg : ConfigState} {l : List (MapKey × Value)}
    {x : MapKey × Value} (hx : x ∈ sortEntries cfg l) : x ∈ l := by
  unfold sortEntries at hx
  by_cases hs : cfg.sortKeys
  · rw [if_pos hs] at hx
    exact (List.perm_insertionSort entryLe l).mem_iff.mp hx
  · rwa [if_neg hs] at hx

theorem measure_ptr_step {u2 u s t p : Nat} (hu : u2 < u) (ht : t < s) :
    u2 * (s + 1) + t < u * (s + 1) + p := by
  have h1 : u2 + 1 ≤ u := hu
  have h2 : (u2 + 1) * (s + 1) ≤ u * (s + 1) := Nat.mul_le_mul_right _ h1
  have h3 : (u2 + 1) * (s + 1) = u2 * (s + 1) + (s + 1) := by ring
  omega

mutual

/-- Modelled from the spec: the Inline renderer (`format.go` is absent from
the sources).  `plus` is the verbose flag: field names shown and pointer
addresses displayed.  The Traversal Context threads the visited set and the
depth counter; a reference identity is added to the visited set before
descending, a re-encountered identity stops descent with the `<shown>`
marker, depth truncation substitutes `<max>`. -/
def fmtValue (h : Heap) (cfg : ConfigState) (plus : Bool) (vis : List Nat)
    (depth : Nat) : Value → String
  | .invalid => "<invalid>"
  | .vBool b => if b then "true" else "false"
  | .vInt _ n => toString n
  | .vUint _ n => toString n
  | .vString s => s
  | .vNilPtr _ => "<nil>"
  | .vPtr _ addr =>
      "<*>" ++ ptrAddrPart cfg plus addr ++
      (if hv : addr ∈ vis then "<shown>"
       else
         match hl : lookupHeap h addr with
         | none => "<invalid>"
         | some tv => fmtValue h cfg plus (addr :: vis) depth tv)
  | .vStruct _ fields =>
      if cfg.maxDepth ≠ 0 ∧ depth + 1 > cfg.maxDepth then "\x7b<max>\x7d"
      else "\x7b" ++ fmtFields h cfg plus vis (depth + 1) fields ++ "\x7d"
  | .vMap _ entries =>
      if cfg.maxDepth ≠ 0 ∧ depth + 1 > cfg.maxDepth then "map[<max>]"
      else "map[" ++ fmtEntries h cfg plus vis (depth + 1) (sortEntries cfg entries) ++ "]"
  | .vStringer _ raw outp =>
      if cfg.disableMethods then fmtValue h cfg plus vis depth raw
      else
        match outp with
        | .ok s => s
        | .error msg => "(PANIC=" ++ msg ++ ")"
  | .vUnknown _ kind accessible hostRepr =>
      if accessible then hostRepr else "<" ++ kind ++ " Value>"
termination_by v => unvisited h vis * (sizeOf h + 1) + sizeOf v
decreasing_by
all_goals first
| exact measure_ptr_step (unvisited_lt (lookupHeap_mem_domain hl) hv) (lookupHeap_sizeOf hl)
| (apply Nat.add_lt_add_left; rw [sizeOf_sortEntries]; simp; try omega)
| (apply Nat.add_lt_add_left; simp; try omega)
| omega

/-- Modelled from the spec: Inline rendering of struct fields, space
separated, `name:` shown only under the verbose flag. -/
def fmtFields (h : Heap) (cfg : ConfigState) (plus : Bool) (vis : List Nat)
    (depth : Nat) : List (String × Bool × Value) → String
  | [] => ""
  | [(name, _, v)] =>
      (if plus then name ++ ":" else "") ++ fmtValue h cfg plus vis depth v
  | (name, _, v) :: rest =>
      (if plus then name ++ ":" else "") ++ fmtValue h cfg plus vis depth v ++
      " " ++ fmtFields h cfg plus vis depth rest
termination_by l => unvisited h vis * (sizeOf h + 1) + sizeOf l

/-- Modelled from the spec: Inline rendering of map entries. -/
def fmtEntries (h : Heap) (cfg : ConfigState) (plus : Bool) (vis : List Nat)
    (depth : Nat) : List (MapKey × Value) → String
  | [] => ""
  | [(k, v)] => keyStr k ++ ":" ++ fmtValue h cfg plus vis depth v
  | (k, v) :: rest =>
      keyStr k ++ ":" ++ fmtValue h cfg plus vis depth v ++ " " ++
      fmtEntries h cfg plus vis depth rest
termination_by l => unvisited h vis * (sizeOf h + 1) + sizeOf l

end

mutual

/-- Modelled from the spec: the Indented renderer (`dump.go` is absent from
the sources).  One entry per line, `(type) value` leaves, composites open a
brace block with one extra unit of `Indent` per depth level and trailing
comma separators; `showType` is cleared after a pointer has already printed
the chained type.  Depth truncation substitutes `<max depth reached>` as the
sole body of the truncated composite; a re-encountered reference identity
renders as `<shown>`; an invalid value renders as `<invalid>`. -/
def dumpValue (h : Heap) (cfg : ConfigState) (vis : List Nat) (depth : Nat)
    (showType : Bool) : Value → String
  | .invalid => "<invalid>"
  | .vBool b => typeAnn showType "bool" ++ (if b then "true" else "false")
  | .vInt ty n => typeAnn showType ty ++ toString n
  | .vUint ty n => typeAnn showType ty ++ toString n
  | .vString s => typeAnn showType "string" ++ "\"" ++ s ++ "\""
  | .vNilPtr ty =>
      (if showType then "(" ++ ty ++ ")" else "") ++ "(<nil>)"
  | .vPtr ty addr =>
      (if showType then "(" ++ ty ++ ")" else "") ++
      (if cfg.disablePointerAddresses then "" else "(" ++ fmtAddr addr ++ ")") ++
      "(" ++
      (if hv : addr ∈ vis then "<shown>"
       else
         match hl : lookupHeap h addr with
         | none => "<invalid>"
         | some tv => dumpValue h cfg (addr :: vis) depth false tv) ++ ")"
  | .vStruct ty fields =>
      typeAnn showType ty ++
      (if cfg.maxDepth ≠ 0 ∧ depth + 1 > cfg.maxDepth then
        "\x7b\n" ++ indentN cfg.indent (depth + 1) ++ "<max depth reached>" ++
        "\n" ++ indentN cfg.indent depth ++ "\x7d"
      else
        "\x7b\n" ++ dumpFields h cfg vis (depth + 1) fields ++ "\n" ++
        indentN cfg.indent depth ++ "\x7d")
  | .vMap ty entries =>
      typeAnn showType ty ++
      (if cfg.disableCapacities then ""
       else "(len=" ++ toString entries.length ++ ") ") ++
      (if cfg.maxDepth ≠ 0 ∧ depth + 1 > cfg.maxDepth then
        "\x7b\n" ++ indentN cfg.indent (depth + 1) ++ "<max depth reached>" ++
        "\n" ++ indentN cfg.indent depth ++ "\x7d"
      else
        "\x7b\n" ++ dumpEntries h cfg vis (depth + 1) (sortEntries cfg entries) ++
        "\n" ++ indentN cfg.indent depth ++ "\x7d")
  | .vStringer ty raw outp =>
      if cfg.disableMethods then dumpValue h cfg vis depth showType raw
      else
        typeAnn showType ty ++
        (match outp with
         | .ok s => s
         | .error msg => "(PANIC=" ++ msg ++ ")")
  | .vUnknown ty kind accessible hostRepr =>
      typeAnn showType ty ++
      (if accessible then hostRepr else "<" ++ kind ++ " Value>")
termination_by v => unvisited h vis * (sizeOf h + 1) + sizeOf v
decreasing_by
all_goals first
| exact measure_ptr_step (unvisited_lt (lookupHeap_mem_domain hl) hv) (lookupHeap_sizeOf hl)
| (apply Nat.add_lt_add_left; rw [sizeOf_sortEntries]; simp; try omega)
| (apply Nat.add_lt_add_left; simp; try omega)

/-- Modelled from the spec: Indented rendering of struct fields, one line
per field, comma separated. -/
def dumpFields (h : Heap) (cfg : ConfigState) (vis : List Nat) (depth : Nat) :
    List (String × Bool × Value) → String
  | [] => ""
  | [(name, _, v)] =>
      indentN cfg.indent depth ++ name ++ ": " ++ dumpValue h cfg vis depth true v
  | (name, _, v) :: rest =>
      indentN cfg.indent depth ++ name ++ ": " ++ dumpValue h cfg vis depth true v ++
      ",\n" ++ dumpFields h cfg vis depth rest
termination_by l => unvisited h vis * (sizeOf h + 1) + sizeOf l

/-- Modelled from the spec: Indented rendering of map entries, one line per
entry, comma separated. -/
def dumpEntries (h : Heap) (cfg : ConfigState) (vis : List Nat) (depth : Nat) :
    List (MapKey × Value) → String
  | [] => ""
  | [(k, v)] =>
      indentN cfg.indent depth ++ dumpKey k ++ ": " ++ dumpValue h cfg vis depth true v
  | (k, v) :: rest =>
      indentN cfg.indent depth ++ dumpKey k ++ ": " ++ dumpValue h cfg vis depth true v ++
      ",\n" ++ dumpEntries h cfg vis depth rest
termination_by l => unvisited h vis * (sizeOf h + 1) + sizeOf l

end

/-- The Key Orderer relation is total. -/
theorem keyLe_total (a b : MapKey) : keyLe a b = true ∨ keyLe b a = true := by
  rcases a with x | x | x | x <;> rcases b with y | y | y | y <;>
    simp [keyLe, kindIdx] <;>
    first
    | omega
    | exact le_total _ _
    | (cases x <;> cases y <;> simp)

/-- The Key Orderer relation is transitive. -/
theorem keyLe_trans {a b c : MapKey} (h1 : keyLe a b = true)
    (h2 : keyLe b c = true) : keyLe a c = true := by
  rcases a with x | x | x | x <;> rcases b with y | y | y | y <;>
    rcases c with z | z | z | z <;>
    simp [keyLe, kindIdx] at h1 h2 ⊢ <;>
    first
    | omega
    | exact le_trans h1 h2
    | (cases x <;> cases y <;> cases z <;> simp_all)

/-- The Key Orderer relation is antisymmetric: two keys below each other are
the same key. -/
theorem keyLe_antisymm {a b : MapKey} (h1 : keyLe a b = true)
    (h2 : keyLe b a = true) : a = b := by
  rcases a with x | x | x | x <;> rcases b with y | y | y | y <;>
    simp [keyLe, kindIdx] at h1 h2 ⊢ <;>
    first
    | omega
    | exact le_antisymm h1 h2
    | exact String.ext (le_antisymm h1 h2)
    | (cases x <;> cases y <;> simp_all)

instance : IsTotal (MapKey × Value) entryLe where
  total a b := by
    unfold entryLe
    exact keyLe_total a.1 b.1

instance : IsTrans (MapKey × Value) entryLe where
  trans a b c h1 h2 := keyLe_trans h1 h2

/-- A sorted list is determined by its multiset of elements once the order
relation is antisymmetric on those elements. -/
theorem eq_of_perm_sorted_anti {α : Type} {r : α → α → Prop}
    (l1 : List α) : ∀ (l2 : List α), List.Perm l1 l2 →
    (∀ a, a ∈ l1 → ∀ b, b ∈ l1 → r a b → r b a → a = b) →
    l1.Sorted r → l2.Sorted r → l1 = l2 := by
  induction l1 with
  | nil =>
    intro l2 p _ _ _
    exact p.nil_eq
  | cons a t1 ih =>
    intro l2 p anti s1 s2
    cases l2 with
    | nil =>
      have := p.symm.nil_eq
      simp at this
    | cons b t2 =>
      have hb1 : b ∈ a :: t1 := p.symm.subset (List.mem_cons_self b t2)
      have ha2 : a ∈ b :: t2 := p.subset (List.mem_cons_self a t1)
      have hab : a = b := by
        rcases List.mem_cons.mp hb1 with he | hbt1
        · exact he.symm
        · rcases List.mem_cons.mp ha2 with he | hat2
          · exact he
          · exact anti a (List.mem_cons_self a t1) b hb1
              (List.rel_of_sorted_cons s1 b hbt1)
              (List.rel_of_sorted_cons s2 a hat2)
      subst hab
      have pt : List.Perm t1 t2 := p.cons_inv
      have ht : t1 = t2 :=
        ih t2 pt
          (fun x hx y hy => anti x (List.mem_cons_of_mem _ hx) y
            (List.mem_cons_of_mem _ hy))
          s1.of_cons s2.of_cons
      rw [ht]

/-- Sorting map entries by the Key Orderer erases the incoming iteration
order: permuted entry lists with no duplicate key sort identically. -/
theorem insertionSort_entries_eq {e1 e2 : List (MapKey × Value)}
    (p : List.Perm e1 e2) (nd : (e1.map Prod.fst).Nodup) :
    List.insertionSort entryLe e1 = List.insertionSort entryLe e2 := by
  apply eq_of_perm_sorted_anti
  · exact (List.perm_insertionSort entryLe e1).trans
      (p.trans (List.perm_insertionSort entryLe e2).symm)
  · intro x hx y hy hxy hyx
    have hx1 : x ∈ e1 := (List.perm_insertionSort entryLe e1).mem_iff.mp hx
    have hy1 : y ∈ e1 := (List.perm_insertionSort entryLe e1).mem_iff.mp hy
    have hk : x.1 = y.1 := keyLe_antisymm hxy hyx
    exact List.inj_on_of_nodup_map nd hx1 hy1 hk
  · exact List.sorted_insertionSort entryLe e1
  · exact List.sorted_insertionSort entryLe e2

/-- `sortEntries` under `SortKeys` is insensitive to the host iteration
order of a map with distinct keys. -/
theorem sortEntries_eq_of_perm {cfg : ConfigState} (hs : cfg.sortKeys = true)
    {e1 e2 : List (MapKey × Value)} (p : List.Perm e1 e2)
    (nd : (e1.map Prod.fst).Nodup) :
    sortEntries cfg e1 = sortEntries cfg e2 := by
  unfold sortEntries
  rw [if_pos hs, if_pos hs]
  exact insertionSort_entries_eq p nd

/-- Translated from `bypasssafe.go`: the abstract reflective-value handle
(`reflect.Value`) as the spec describes it — kind, declared type name, the
exported/accessible flag, the addressability flag. -/
structure ReflectValue where
  kind : String
  typeName : String
  exported : Bool
  addressable : Bool
deriving DecidableEq

/-- Translated from `bypasssafe.go`: `UnsafeDisabled` is a build-time
constant which specifies whether or not access to the unsafe package is
available; in this safe build it is true. -/
def UnsafeDisabled : Bool := true

/-- Translated from `bypasssafe.go`: the stub version of the field-access
bypass compiled when the unsafe package is not available — it simply
returns the passed reflect.Value. -/
def unsafeReflectValue (v : ReflectValue) : ReflectValue := v

/-- Unfolding lemma: a pointer whose identity is already in the visited set
renders inline as the pointer marker followed by `<shown>`. -/
theorem fmtValue_ptr_visited (h : Heap) (cfg : ConfigState) (plus : Bool)
    (vis : List Nat) (depth : Nat) (ty : String) (addr : Nat)
    (hv : addr ∈ vis) :
    fmtValue h cfg plus vis depth (.vPtr ty addr) =
      "<*>" ++ ptrAddrPart cfg plus addr ++ "<shown>" := by
  simp only [fmtValue]
  rw [dif_pos hv]

/-- Unfolding lemma: a pointer not yet visited is dereferenced, its identity
added to the visited set before descending. -/
theorem fmtValue_ptr_deref (h : Heap) (cfg : ConfigState) (plus : Bool)
    (vis : List Nat) (depth : Nat) (ty : String) (addr : Nat) (tv : Value)
    (hv : ¬ addr ∈ vis) (hl : lookupHeap h addr = some tv) :
    fmtValue h cfg plus vis depth (.vPtr ty addr) =
      "<*>" ++ ptrAddrPart cfg plus addr ++
        fmtValue h cfg plus (addr :: vis) depth tv := by
  simp only [fmtValue]
  rw [dif_neg hv]
  split
  next heq => rw [hl] at heq; cases heq
  next tv2 heq =>
    rw [hl] at heq
    injection heq with h2
    rw [h2]

/-- Unfolding lemma: Indented rendering of an already-visited pointer. -/
theorem dumpValue_ptr_visited (h : Heap) (cfg : ConfigState) (vis : List Nat)
    (depth : Nat) (showType : Bool) (ty : String) (addr : Nat)
    (hv : addr ∈ vis) :
    dumpValue h cfg vis depth showType (.vPtr ty addr) =
      (if showType then "(" ++ ty ++ ")" else "") ++
      (if cfg.disablePointerAddresses then "" else "(" ++ fmtAddr addr ++ ")") ++
      "(" ++ "<shown>" ++ ")" := by
  simp only [dumpValue]
  rw [dif_pos hv]
  try simp [← String.append_assoc]

/-- Unfolding lemma: Indented rendering of a pointer not yet visited. -/
theorem dumpValue_ptr_deref (h : Heap) (cfg : ConfigState) (vis : List Nat)
    (depth : Nat) (showType : Bool) (ty : String) (addr : Nat) (tv : Value)
    (hv : ¬ addr ∈ vis) (hl : lookupHeap h addr = some tv) :
    dumpValue h cfg vis depth showType (.vPtr ty addr) =
      (if showType then "(" ++ ty ++ ")" else "") ++
      (if cfg.disablePointerAddresses then "" else "(" ++ fmtAddr addr ++ ")") ++
      "(" ++ dumpValue h cfg (addr :: vis) depth false tv ++ ")" := by
  simp only [dumpValue]
  rw [dif_neg hv]
  have hmatch : (match hl2 : lookupHeap h addr with
      | none => "<invalid>"
      | some tv2 => dumpValue h cfg (addr :: vis) depth false tv2) =
      dumpValue h cfg (addr :: vis) depth false tv := by
    split
    next heq => rw [hl] at heq; cases heq
    next tv2 heq =>
      rw [hl] at heq
      injection heq with h2
      rw [h2]
  rw [hmatch]
  try simp [← String.append_assoc]

/-- Configuration with `MaxDepth = 1`. -/
def cfgDepth1 : ConfigState := { defaultConfig with maxDepth := 1 }

/-- Configuration with `DisableMethods` set. -/
def cfgNoMethods : ConfigState := { defaultConfig with disableMethods := true }

/-- Configuration with `SortKeys` set. -/
def cfgSortKeys : ConfigState := { defaultConfig with sortKeys := true }

/-- Configuration with `DisablePointerAddresses` set. -/
def cfgNoPtrAddr : ConfigState := { defaultConfig with disablePointerAddresses := true }

/-- The self-referential `Circular` value graph from the design article:
`c := &Circular\x7b1, nil\x7d; c.next = c`, generalized over the address and
the `a` field. -/
def circularHeap (addr : Nat) (a : Int) : Heap :=
  [(addr, .vStruct "main.Circular"
    [("a", false, .vInt "int" a), ("next", false, .vPtr "*main.Circular" addr)])]

/-- The `ctfileHeader` fixture from the design article. -/
def ctfileHeader : Value :=
  .vStruct "main.ctfileHeader"
    [("beacon", false, .vInt "int32" 1297035375),
     ("numShas", false, .vInt "int64" 82),
     ("mode", false, .vUint "uint32" 33060),
     ("typ", false, .vUint "uint8" 4),
     ("filename", false, .vString "test")]

/-- The `ctfileParseState` fixture: a pointer to the header plus one string
field. -/
def ctfileParseState (addr : Nat) : Value :=
  .vStruct "main.ctfileParseState"
    [("header", false, .vPtr "*main.ctfileHeader" addr),
     ("bar", false, .vString "bar")]

/-- Restated unfolding of the Inline struct arm. -/
theorem fmtValue_struct (h : Heap) (cfg : ConfigState) (plus : Bool)
    (vis : List Nat) (depth : Nat) (ty : String)
    (fields : List (String × Bool × Value)) :
    fmtValue h cfg plus vis depth (.vStruct ty fields) =
      if cfg.maxDepth ≠ 0 ∧ depth + 1 > cfg.maxDepth then "\x7b<max>\x7d"
      else "\x7b" ++ fmtFields h cfg plus vis (depth + 1) fields ++ "\x7d" := by
  simp only [fmtValue]

/-- Restated unfolding of the Indented struct arm. -/
theorem dumpValue_struct (h : Heap) (cfg : ConfigState) (vis : List Nat)
    (depth : Nat) (showType : Bool) (ty : String)
    (fields : List (String × Bool × Value)) :
    dumpValue h cfg vis depth showType (.vStruct ty fields) =
      typeAnn showType ty ++
      (if cfg.maxDepth ≠ 0 ∧ depth + 1 > cfg.maxDepth then
        "\x7b\n" ++ indentN cfg.indent (depth + 1) ++ "<max depth reached>" ++
        "\n" ++ indentN cfg.indent depth ++ "\x7d"
      else
        "\x7b\n" ++ dumpFields h cfg vis (depth + 1) fields ++ "\n" ++
        indentN cfg.indent depth ++ "\x7d") := by
  simp only [dumpValue]

/-- C1: before descending into a reference the engine adds its identity to
the visited set; a re-encountered identity stops descent at once with the
`<shown>` marker, so a dump of a cyclic graph terminates (the renderers are
total functions), and the self-referential node `\x7ba:1, next:<self>\x7d`
renders inline exactly as
`<*>(<address>)\x7ba:1 next:<*>(<address>)<shown>\x7d`. -/
theorem claim_cycle_termination :
    (∀ (h : Heap) (cfg : ConfigState) (plus : Bool) (vis : List Nat)
        (depth : Nat) (ty : String) (addr : Nat), addr ∈ vis →
        fmtValue h cfg plus vis depth (.vPtr ty addr) =
          "<*>" ++ ptrAddrPart cfg plus addr ++ "<shown>")
    ∧ (∀ (h : Heap) (cfg : ConfigState) (vis : List Nat) (depth : Nat)
        (showType : Bool) (ty : String) (addr : Nat), addr ∈ vis →
        dumpValue h cfg vis depth showType (.vPtr ty addr) =
          (if showType then "(" ++ ty ++ ")" else "") ++
          (if cfg.disablePointerAddresses then "" else "(" ++ fmtAddr addr ++ ")") ++
          "(" ++ "<shown>" ++ ")")
    ∧ (∀ (addr : Nat) (a : Int),
        fmtValue (circularHeap addr a) defaultConfig true [] 0
          (.vPtr "*main.Circular" addr) =
        "<*>(" ++ fmtAddr addr ++ ")\x7ba:" ++ toString a ++ " next:<*>(" ++
          fmtAddr addr ++ ")<shown>\x7d") := by
  refine ⟨?_, ?_, ?_⟩
  · intro h cfg plus vis depth ty addr hv
    exact fmtValue_ptr_visited h cfg plus vis depth ty addr hv
  · intro h cfg vis depth showType ty addr hv
    exact dumpValue_ptr_visited h cfg vis depth showType ty addr hv
  · intro addr a
    rw [show circularHeap addr a = [(addr, Value.vStruct "main.Circular"
      [("a", false, .vInt "int" a), ("next", false, .vPtr "*main.Circular" addr)])] from rfl]
    rw [fmtValue_ptr_deref _ _ _ _ _ _ _ (Value.vStruct "main.Circular"
      [("a", false, .vInt "int" a), ("next", false, .vPtr "*main.Circular" addr)])
      (by simp) (by simp [lookupHeap])]
    simp [fmtValue, fmtFields, ptrAddrPart, defaultConfig, fmtAddr,
      fmtValue_ptr_visited, ← String.append_assoc]
    try simp [String.append_assoc]

/-- Witness for C1: the cycle-stop conjunct applied at a concrete visited
pointer. -/
theorem claim_cycle_termination_witness :
    (fmtValue [] defaultConfig true [7] 0 (.vPtr "*main.Circular" 7) =
      "<*>" ++ ptrAddrPart defaultConfig true 7 ++ "<shown>")
    ∧ (dumpValue [] defaultConfig [7] 0 true (.vPtr "*main.Circular" 7) =
      (if true then "(" ++ "*main.Circular" ++ ")" else "") ++
      (if defaultConfig.disablePointerAddresses then ""
       else "(" ++ fmtAddr 7 ++ ")") ++ "(" ++ "<shown>" ++ ")") :=
  ⟨claim_cycle_termination.1 [] defaultConfig true [7] 0 "*main.Circular" 7
    (by simp),
   claim_cycle_termination.2.1 [] defaultConfig [7] 0 true "*main.Circular" 7
    (by simp)⟩

/-- C2: with `MaxDepth = 1`, a struct whose only field is a pointer to
another struct expands exactly one level and substitutes the truncation
marker for the second level regardless of the inner struct's fields:
`<max>` inline, `<max depth reached>` as the sole body when indented. -/
theorem claim_depth_truncation :
    ∀ (inner : List (String × Bool × Value)) (addr : Nat)
      (tyO tyP tyI fname : String) (ex : Bool),
      fmtValue [(addr, .vStruct tyI inner)] cfgDepth1 true [] 0
          (.vStruct tyO [(fname, ex, .vPtr tyP addr)]) =
        "\x7b" ++ fname ++ ":<*>(" ++ fmtAddr addr ++ ")\x7b<max>\x7d\x7d"
      ∧ dumpValue [(addr, .vStruct tyI inner)] cfgDepth1 [] 0 true
          (.vStruct tyO [(fname, ex, .vPtr tyP addr)]) =
        "(" ++ tyO ++ ") \x7b\n " ++ fname ++ ": (" ++ tyP ++ ")(" ++
          fmtAddr addr ++ ")(\x7b\n  <max depth reached>\n \x7d)\n\x7d" := by
  intro inner addr tyO tyP tyI fname ex
  have hnv : ¬ addr ∈ ([] : List Nat) := by simp
  have hl : lookupHeap [(addr, Value.vStruct tyI inner)] addr =
      some (Value.vStruct tyI inner) := by simp [lookupHeap]
  constructor
  · have hp := fmtValue_ptr_deref [(addr, Value.vStruct tyI inner)] cfgDepth1
      true [] 1 tyP addr (Value.vStruct tyI inner) hnv hl
    have hs : fmtValue [(addr, Value.vStruct tyI inner)] cfgDepth1 true [addr] 1
        (Value.vStruct tyI inner) = "\x7b<max>\x7d" := by
      rw [fmtValue_struct, if_pos (by simp [cfgDepth1, defaultConfig])]
    rw [fmtValue_struct, if_neg (by simp [cfgDepth1, defaultConfig])]
    simp [fmtFields, hp, hs, ptrAddrPart,
      show cfgDepth1.disablePointerAddresses = false from rfl,
      ← String.append_assoc]
    try simp [String.append_assoc]
  · have hp := dumpValue_ptr_deref [(addr, Value.vStruct tyI inner)] cfgDepth1
      [] 1 true tyP addr (Value.vStruct tyI inner) hnv hl
    have hs : dumpValue [(addr, Value.vStruct tyI inner)] cfgDepth1 [addr] 1
        false (Value.vStruct tyI inner) =
        "\x7b\n" ++ indentN cfgDepth1.indent 2 ++ "<max depth reached>" ++
        "\n" ++ indentN cfgDepth1.indent 1 ++ "\x7d" := by
      rw [dumpValue_struct, if_pos (by simp [cfgDepth1, defaultConfig])]
      simp [typeAnn]
    rw [dumpValue_struct, if_neg (by simp [cfgDepth1, defaultConfig])]
    simp [dumpFields, hp, hs, typeAnn, indentN,
      show cfgDepth1.disablePointerAddresses = false from rfl,
      show cfgDepth1.indent = " " from rfl,
      ← String.append_assoc]
    try simp [String.append_assoc]

/-- C3: an invalid reflective value renders as the literal `<invalid>` in
both the Indented dump path and the Inline format path, independent of
configuration, depth or cycle state. -/
theorem claim_invalid_marker :
    ∀ (h : Heap) (cfg : ConfigState) (plus : Bool) (vis : List Nat)
      (depth : Nat) (showType : Bool),
      fmtValue h cfg plus vis depth .invalid = "<invalid>"
      ∧ dumpValue h cfg vis depth showType .invalid = "<invalid>" := by
  intro h cfg plus vis depth showType
  constructor
  · simp [fmtValue]
  · simp [dumpValue]

/-- C4: a reflective value of a kind outside the known enumeration still
classifies into the generic fallback branch; when accessible the output
defers to the host's default textual conversion (dump annotates the type,
format emits the bare conversion), and the call is total. -/
theorem claim_unknown_kind_accessible :
    ∀ (h : Heap) (cfg : ConfigState) (plus : Bool) (vis : List Nat)
      (depth : Nat) (ty kind hostRepr : String),
      fmtValue h cfg plus vis depth (.vUnknown ty kind true hostRepr) = hostRepr
      ∧ dumpValue h cfg vis depth true (.vUnknown ty kind true hostRepr) =
          "(" ++ ty ++ ") " ++ hostRepr
      ∧ dumpValue h defaultConfig [] 0 true (.vUnknown "int8" "int8" true "5") =
          "(int8) 5"
      ∧ fmtValue h defaultConfig plus [] 0 (.vUnknown "int8" "int8" true "5") =
          "5" := by
  intro h cfg plus vis depth ty kind hostRepr
  refine ⟨?_, ?_, ?_, ?_⟩ <;>
    (simp [fmtValue, dumpValue, typeAnn, ← String.append_assoc]
     try simp [String.append_assoc])

/-- C5: an unrecognized-kind value the Field Accessor denies access to
renders as the `<kind Value>` placeholder naming the kind — `(int8) <int8
Value>` in dump form, `<int8 Value>` in format form — never a hard
failure. -/
theorem claim_unknown_kind_inaccessible :
    ∀ (h : Heap) (cfg : ConfigState) (plus : Bool) (vis : List Nat)
      (depth : Nat) (ty kind hostRepr : String),
      fmtValue h cfg plus vis depth (.vUnknown ty kind false hostRepr) =
          "<" ++ kind ++ " Value>"
      ∧ dumpValue h cfg vis depth true (.vUnknown ty kind false hostRepr) =
          "(" ++ ty ++ ") <" ++ kind ++ " Value>"
      ∧ dumpValue h defaultConfig [] 0 true (.vUnknown "int8" "int8" false "5") =
          "(int8) <int8 Value>"
      ∧ fmtValue h defaultConfig plus [] 0 (.vUnknown "int8" "int8" false "5") =
          "<int8 Value>" := by
  intro h cfg plus vis depth ty kind hostRepr
  refine ⟨?_, ?_, ?_, ?_⟩ <;>
    (simp [fmtValue, dumpValue, typeAnn, ← String.append_assoc]
     try simp [String.append_assoc])

/-- C6: a custom conversion that fails irrecoverably is caught locally: the
dump of the enclosing struct completes, the failing value's output is the
`(PANIC=<message>)` placeholder, and both sibling values render exactly as
they would alone. -/
theorem claim_panic_containment :
    ∀ (h : Heap) (vis : List Nat) (depth : Nat) (msg tyS : String)
      (raw : Value) (n m : Int),
      fmtValue h defaultConfig true vis depth
          (.vStruct "main.T"
            [("x", true, .vInt "int" n),
             ("p", true, .vStringer tyS raw (.error msg)),
             ("y", true, .vInt "int" m)]) =
        "\x7bx:" ++ fmtValue h defaultConfig true vis (depth + 1) (.vInt "int" n) ++
        " p:(PANIC=" ++ msg ++ ") y:" ++
        fmtValue h defaultConfig true vis (depth + 1) (.vInt "int" m) ++ "\x7d" := by
  intro h vis depth msg tyS raw n m
  rw [fmtValue_struct, if_neg (by simp [defaultConfig])]
  simp [fmtFields, fmtValue, defaultConfig, ← String.append_assoc]
  try simp [String.append_assoc]

/-- C7: with `SortKeys` enabled the rendered output of a map is independent
of the host's internal iteration order — any two permutations of the same
distinct-keyed entries render byte-identically, in both modes — and the Key
Orderer's relation is total. -/
theorem claim_sorted_key_determinism :
    (∀ (e1 e2 : List (MapKey × Value)) (ty : String) (h : Heap)
        (vis : List Nat) (depth : Nat) (plus showType : Bool),
        List.Perm e1 e2 → (e1.map Prod.fst).Nodup →
        fmtValue h cfgSortKeys plus vis depth (.vMap ty e1) =
          fmtValue h cfgSortKeys plus vis depth (.vMap ty e2)
        ∧ dumpValue h cfgSortKeys vis depth showType (.vMap ty e1) =
          dumpValue h cfgSortKeys vis depth showType (.vMap ty e2))
    ∧ (∀ a b : MapKey, keyLe a b = true ∨ keyLe b a = true) := by
  constructor
  · intro e1 e2 ty h vis depth plus showType p nd
    have hs : sortEntries cfgSortKeys e1 = sortEntries cfgSortKeys e2 :=
      sortEntries_eq_of_perm (show cfgSortKeys.sortKeys = true from rfl) p nd
    have hlen : e1.length = e2.length := p.length_eq
    constructor
    · simp only [fmtValue]
      rw [hs]
    · simp only [dumpValue]
      rw [hs, hlen]
  · exact keyLe_total

/-- Witness for C7: two opposite host iteration orders of the same two-entry
map render identically under `SortKeys`. -/
theorem claim_sorted_key_determinism_witness :
    fmtValue [] cfgSortKeys true [] 0
        (.vMap "map[int]int" [(.kInt 2, .vInt "int" 20), (.kInt 1, .vInt "int" 10)]) =
      fmtValue [] cfgSortKeys true [] 0
        (.vMap "map[int]int" [(.kInt 1, .vInt "int" 10), (.kInt 2, .vInt "int" 20)]) :=
  (claim_sorted_key_determinism.1
    [(.kInt 2, .vInt "int" 20), (.kInt 1, .vInt "int" 10)]
    [(.kInt 1, .vInt "int" 10), (.kInt 2, .vInt "int" 20)]
    "map[int]int" [] [] 0 true true (List.Perm.swap _ _ _) (by decide)).1

/-- C8: the concrete pointer-dereferencing scenario: the parse-state struct
wrapping a pointer to the header struct renders inline (verbose mode) as
`\x7bheader:<*>(<address>)\x7bbeacon:1297035375 numShas:82 mode:33060 typ:4
filename:test\x7d bar:bar\x7d`, with the address present; with
`DisablePointerAddresses` set the address component is omitted. -/
theorem claim_pointer_deref_scenario :
    ∀ addr : Nat,
      fmtValue [(addr, ctfileHeader)] defaultConfig true [] 0
          (ctfileParseState addr) =
        "\x7bheader:<*>(" ++ fmtAddr addr ++
          ")\x7bbeacon:1297035375 numShas:82 mode:33060 typ:4 filename:test\x7d bar:bar\x7d"
      ∧ fmtValue [(addr, ctfileHeader)] cfgNoPtrAddr true [] 0
          (ctfileParseState addr) =
        "\x7bheader:<*>\x7bbeacon:1297035375 numShas:82 mode:33060 typ:4 filename:test\x7d bar:bar\x7d" := by
  intro addr
  have hnv : ¬ addr ∈ ([] : List Nat) := by simp
  have hl : lookupHeap [(addr, ctfileHeader)] addr = some ctfileHeader := by
    simp [lookupHeap]
  have hbody : ∀ cfg : ConfigState, cfg.maxDepth = 0 →
      fmtValue [(addr, ctfileHeader)] cfg true [addr] 1 ctfileHeader =
        "\x7bbeacon:1297035375 numShas:82 mode:33060 typ:4 filename:test\x7d" := by
    intro cfg hmd
    rw [show ctfileHeader = Value.vStruct "main.ctfileHeader"
      [("beacon", false, .vInt "int32" 1297035375),
       ("numShas", false, .vInt "int64" 82),
       ("mode", false, .vUint "uint32" 33060),
       ("typ", false, .vUint "uint8" 4),
       ("filename", false, .vString "test")] from rfl]
    rw [fmtValue_struct, if_neg (by simp [hmd])]
    simp [fmtFields, fmtValue,
      show toString (1297035375 : Int) = "1297035375" from rfl,
      show toString (82 : Int) = "82" from rfl,
      show toString (33060 : Nat) = "33060" from rfl,
      show toString (4 : Nat) = "4" from rfl,
      ← String.append_assoc]
    try simp [String.append_assoc]
  constructor
  · have hp := fmtValue_ptr_deref [(addr, ctfileHeader)] defaultConfig
      true [] 1 "*main.ctfileHeader" addr ctfileHeader hnv hl
    rw [show ctfileParseState addr = Value.vStruct "main.ctfileParseState"
      [("header", false, .vPtr "*main.ctfileHeader" addr),
       ("bar", false, .vString "bar")] from rfl]
    rw [fmtValue_struct, if_neg (by simp [defaultConfig])]
    simp [fmtFields, hp, hbody defaultConfig rfl, fmtValue, ptrAddrPart,
      show defaultConfig.disablePointerAddresses = false from rfl,
      ← String.append_assoc]
    try simp [String.append_assoc]
  · have hp := fmtValue_ptr_deref [(addr, ctfileHeader)] cfgNoPtrAddr
      true [] 1 "*main.ctfileHeader" addr ctfileHeader hnv hl
    rw [show ctfileParseState addr = Value.vStruct "main.ctfileParseState"
      [("header", false, .vPtr "*main.ctfileHeader" addr),
       ("bar", false, .vString "bar")] from rfl]
    rw [fmtValue_struct, if_neg (by simp [cfgNoPtrAddr, defaultConfig])]
    simp [fmtFields, hp, hbody cfgNoPtrAddr rfl, fmtValue, ptrAddrPart,
      show cfgNoPtrAddr.disablePointerAddresses = true from rfl,
      ← String.append_assoc]
    try simp [String.append_assoc]

/-- C9: a struct with an unexported field whose type exposes a
string-conversion capability renders that field through the custom
conversion when `DisableMethods` is false, and renders the field's raw
structural value instead when `DisableMethods` is true. -/
theorem claim_custom_conversion :
    ∀ (h : Heap) (vis : List Nat) (depth : Nat) (plus : Bool)
      (tyO tyS fname : String) (raw : Value) (s : String),
      fmtValue h defaultConfig plus vis depth
          (.vStruct tyO [(fname, false, .vStringer tyS raw (.ok s))]) =
        "\x7b" ++ (if plus then fname ++ ":" else "") ++ s ++ "\x7d"
      ∧ fmtValue h cfgNoMethods plus vis depth
          (.vStruct tyO [(fname, false, .vStringer tyS raw (.ok s))]) =
        "\x7b" ++ (if plus then fname ++ ":" else "") ++
          fmtValue h cfgNoMethods plus vis (depth + 1) raw ++ "\x7d" := by
  intro h vis depth plus tyO tyS fname raw s
  constructor
  · rw [fmtValue_struct, if_neg (by simp [defaultConfig])]
    simp [fmtFields, fmtValue, defaultConfig, ← String.append_assoc]
    try simp [String.append_assoc]
  · rw [fmtValue_struct, if_neg (by simp [cfgNoMethods, defaultConfig])]
    simp [fmtFields, fmtValue, cfgNoMethods, defaultConfig,
      ← String.append_assoc]
    try simp [String.append_assoc]

/-- C10: in the restricted (safe) build configuration the field-access
bypass is the identity function on reflective values and the build-time
constant `UnsafeDisabled` is true, so the restrictive Field Accessor never
widens access to unexported or unaddressable data. -/
theorem claim_safe_bypass_identity :
    (∀ v : ReflectValue, unsafeReflectValue v = v)
    ∧ UnsafeDisabled = true :=
  ⟨fun _ => rfl, rfl⟩

end Spew
